import Mathlib

/-!
Shallow embedding of the threadgoon V4.1 download pipeline
(threadgoon-V4.1.py) and proofs about its behaviour.

Strings are modelled as lists of characters (Python strings are
sequences of code points), file contents as lists of byte values, and
the filesystem as an association list from paths to contents.  Network
behaviour is a function from URL to a stream outcome, so that transport
failures before and during streaming can be distinguished.
-/

abbrev FPath := List Char
abbrev Content := List Nat

/-- The reserved characters of the regex in sanitize_filename,
line 35 of the source. -/
def reservedChars : List Char := ['<', '>', ':', '\"', '/', '\\', '|', '?', '*']

/-- Membership test for the characters removed by the control-character
regex on line 37 of the source: the range x00-x1f together with x7f. -/
def isCtrl (c : Char) : Bool := c.toNat ≤ 31 || c.toNat == 127

/-- The characters stripped from both ends by name.strip of line 36. -/
def isDotSpace (c : Char) : Bool := c == '.' || c == ' '

/-- Python str.strip with the character set of dot and space:
remove the matching characters from both ends. -/
def stripDotsSpaces (l : List Char) : List Char :=
  ((l.dropWhile isDotSpace).reverse.dropWhile isDotSpace).reverse

/-- The fallback name used by sanitize_filename. -/
def unnamedName : FPath := "unnamed".data

/-- sanitize_filename, lines 31-38 of the source: empty input falls back
to unnamed; reserved characters become underscores; dots and spaces are
stripped from the ends; ASCII control characters are removed; the result
is truncated to 200 characters, with the fallback when it came out empty. -/
def sanitize_filename (name : FPath) : FPath :=
  if name = [] then unnamedName
  else
    let n1 := name.map fun c => if c ∈ reservedChars then '_' else c
    let n2 := stripDotsSpaces n1
    let n3 := n2.filter fun c => !(isCtrl c)
    if 200 < n3.length then n3.take 200
    else if n3 = [] then unnamedName else n3

/-- Decimal digit characters, modelling how Python renders an integer
into an f-string. -/
def decDigitChar (n : Nat) : Char :=
  if n = 0 then '0' else
  if n = 1 then '1' else
  if n = 2 then '2' else
  if n = 3 then '3' else
  if n = 4 then '4' else
  if n = 5 then '5' else
  if n = 6 then '6' else
  if n = 7 then '7' else
  if n = 8 then '8' else
  if n = 9 then '9' else '*'

/-- Fuelled accumulator loop producing the decimal digits of a natural
number, most significant first. -/
def decDigitsAux : Nat → Nat → List Char → List Char
  | 0, _, ds => ds
  | fuel + 1, n, ds =>
    let d := decDigitChar (n % 10)
    if n / 10 = 0 then d :: ds else decDigitsAux fuel (n / 10) (d :: ds)

/-- The decimal rendering of a natural number, as Python str produces it. -/
def natToChars (n : Nat) : List Char := decDigitsAux (n + 1) n []

/-- Value of a digit character, inverse of decDigitChar on digits. -/
def charToDigit (c : Char) : Nat :=
  if c = '0' then 0 else
  if c = '1' then 1 else
  if c = '2' then 2 else
  if c = '3' then 3 else
  if c = '4' then 4 else
  if c = '5' then 5 else
  if c = '6' then 6 else
  if c = '7' then 7 else
  if c = '8' then 8 else
  if c = '9' then 9 else 0

/-- Reads a digit string back into a number; used to show that the
decimal rendering is injective. -/
def decVal (l : List Char) : Nat := l.foldl (fun a c => 10 * a + charToDigit c) 0

/-! ## Filesystem model -/

/-- The filesystem: an association list from paths to file contents. -/
abbrev FS := List (FPath × Content)

/-- Content lookup at a path. -/
def fsLookup : FS → FPath → Option Content
  | [], _ => none
  | (q, c) :: rest, p => if q = p then some c else fsLookup rest p

/-- os.path.exists on the modelled filesystem. -/
def fsExistsP (fs : FS) (p : FPath) : Bool := (fsLookup fs p).isSome

/-- os.remove on the modelled filesystem. -/
def fsRemove (fs : FS) (p : FPath) : FS := fs.filter fun e => decide (e.1 ≠ p)

/-- Creation of a file with the given content (used only at paths that
do not exist, matching the exclusive-create open mode xb). -/
def fsWrite (fs : FS) (p : FPath) (c : Content) : FS := (p, c) :: fs

/-! ## Filesystem namer -/

/-- os.path.join for the calls made by the source: the directory is a
sanitized title, hence non-empty and without a trailing slash, so join
inserts a single separator. -/
def pathJoin (dir name : FPath) : FPath := dir ++ '/' :: name

/-- The candidate path used by the collision loop of get_unique_filepath:
the base name with an underscore and a decimal counter appended. -/
def suffixedPath (directory base_filename extension : FPath) (counter : Nat) : FPath :=
  pathJoin directory (base_filename ++ '_' :: (natToChars counter ++ extension))

/-- The while loop of get_unique_filepath, lines 45-48 of the source:
try the counters in order and return the first candidate path that does
not exist.  The fuel argument is chosen large enough that it never runs
out (one more than the number of files). -/
def uniqueLoop (fs : FS) (directory base_filename extension : FPath) :
    Nat → Nat → FPath
  | counter, 0 => suffixedPath directory base_filename extension counter
  | counter, fuel + 1 =>
    let file_path := suffixedPath directory base_filename extension counter
    if fsExistsP fs file_path then
      uniqueLoop fs directory base_filename extension (counter + 1) fuel
    else file_path

/-- get_unique_filepath, lines 41-49 of the source. -/
def get_unique_filepath (fs : FS) (directory base_filename extension : FPath) : FPath :=
  let file_path := pathJoin directory (base_filename ++ extension)
  if fsExistsP fs file_path then
    uniqueLoop fs directory base_filename extension 1 (fs.length + 1)
  else file_path

/-! ## Streaming downloader -/

/-- Failure kinds of the attachment transport: the Timeout handler on
line 154 and the RequestException handler on line 165 of the source. -/
inductive NetErr
  | timeout
  | transport
  deriving DecidableEq

/-- Behaviour of one streamed GET: either the whole body arrives (with
the declared content length), or the request fails before the body
starts, or the stream breaks after delivering a prefix of the chunks. -/
inductive NetResult
  | ok (contentLength : Nat) (chunks : List Content)
  | failEarly (kind : NetErr)
  | failMid (delivered : List Content) (kind : NetErr)
  deriving DecidableEq

/-- The network: a response behaviour for every URL. -/
abbrev Net := FPath → NetResult

/-- Why an attachment was skipped: the existence check on line 114, or
the FileExistsError of the exclusive-create open, line 150. -/
inductive SkipReason
  | alreadyExists
  | createCollision
  deriving DecidableEq

/-- The terminal disposition of one post in the download loop.  dropped
marks a post without a usable tim field (line 119), which never becomes
an attachment task. -/
inductive DownloadOutcome
  | downloaded (path : FPath) (bytesWritten : Nat)
  | skipped (path : FPath) (reason : SkipReason)
  | failed (kind : NetErr)
  | dropped
  deriving DecidableEq

/-- A post record of the thread payload, with the fields the source
reads: ext, filename and tim, each possibly absent. -/
structure Post where
  ext : Option FPath
  filename : Option FPath
  tim : Option Nat
  deriving DecidableEq

/-- The accepted attachment extension. -/
def webmExt : FPath := ".webm".data

/-- IMAGE_URL and BOARD joined as on line 123 of the source. -/
def imageBase : FPath := "https://i.4cdn.org/gif/".data

/-- The attachment URL for a remote id, line 123 of the source. -/
def fileUrlOf (tim : Nat) : FPath := imageBase ++ (natToChars tim ++ webmExt)

/-- The chunk-writing loop of lines 138-145: append every non-empty
chunk.  The two branches of the content-length test perform the same
writes and differ only in progress display, so they are merged. -/
def writeChunks (chunks : List Content) : Content :=
  chunks.foldl (fun acc chunk => if chunk = [] then acc else acc ++ chunk) []

/-- Lines 125-173 of the source: issue the streamed GET, open the target
with exclusive create, stream the body to disk, and on a transport
failure or timeout delete whatever was partially written.  A
FileExistsError from the open is the create-collision skip. -/
def openAndStream (net : Net) (fs : FS) (file_path file_url : FPath) :
    FS × DownloadOutcome :=
  match net file_url with
  | NetResult.ok _total_size chunks =>
    if fsExistsP fs file_path then
      (fs, DownloadOutcome.skipped file_path SkipReason.createCollision)
    else
      let content := writeChunks chunks
      (fsWrite fs file_path content, DownloadOutcome.downloaded file_path content.length)
  | NetResult.failEarly kind =>
    ((if fsExistsP fs file_path then fsRemove fs file_path else fs),
      DownloadOutcome.failed kind)
  | NetResult.failMid delivered kind =>
    if fsExistsP fs file_path then
      (fs, DownloadOutcome.skipped file_path SkipReason.createCollision)
    else
      let fsMid := fsWrite fs file_path (writeChunks delivered)
      ((if fsExistsP fsMid file_path then fsRemove fsMid file_path else fsMid),
        DownloadOutcome.failed kind)

/-- One iteration of the loop over webms, lines 109-178 of the source:
sanitize the declared filename, pick a unique path, skip when that path
exists, drop posts without a usable tim (None or 0 are both falsy in
Python), and otherwise download.  The third component is the list of
attachment URLs actually requested. -/
def processWebm (net : Net) (fs : FS) (safe_title : FPath) (webm : Post) :
    FS × DownloadOutcome × List FPath :=
  let base_filename := sanitize_filename (webm.filename.getD unnamedName)
  let file_path := get_unique_filepath fs safe_title base_filename webmExt
  if fsExistsP fs file_path then
    (fs, DownloadOutcome.skipped file_path SkipReason.alreadyExists, [])
  else if webm.tim.getD 0 = 0 then
    (fs, DownloadOutcome.dropped, [])
  else
    let file_url := fileUrlOf (webm.tim.getD 0)
    let r := openAndStream net fs file_path file_url
    (r.1, r.2, [file_url])

/-- The loop of line 109 over all filtered webm posts, threading the
filesystem and collecting one outcome per post. -/
def downloadLoop (net : Net) (fs : FS) (safe_title : FPath) :
    List Post → FS × List DownloadOutcome × List FPath
  | [] => (fs, [], [])
  | webm :: rest =>
    let r := processWebm net fs safe_title webm
    let rr := downloadLoop net r.1 safe_title rest
    (rr.1, r.2.1 :: rr.2.1, r.2.2 ++ rr.2.2)

/-- download_webms, lines 90-178 of the source: filter posts to the
accepted extension, return early when none remain, create the directory
for the sanitized title (directory creation does not touch the file
map), then run the download loop. -/
def download_webms (net : Net) (fs : FS) (thread_data : List Post)
    (thread_title : FPath) : FS × List DownloadOutcome × List FPath :=
  let webms := thread_data.filter fun post => decide (post.ext = some webmExt)
  if webms = [] then (fs, [], [])
  else
    let safe_title := sanitize_filename thread_title
    downloadLoop net fs safe_title webms

/-! ## Batch orchestrator -/

/-- Failure kinds of a listing fetch: get_thread_data raises Timeout,
RequestException or JSONDecodeError (lines 79-87), and the orchestrator
catches any of them on line 266. -/
inductive FetchErr
  | timeout
  | transport
  | decode
  deriving DecidableEq

/-- The listing client: thread data or a fetch failure per thread id. -/
abbrev Fetch := Nat → Except FetchErr (List Post)

/-- Terminal state of one listing in the batch report. -/
inductive ListingResult
  | done (outcomes : List DownloadOutcome)
  | errored (e : FetchErr)
  deriving DecidableEq

/-- The accumulated state of the completion loop in main,
lines 251-269 of the source. -/
structure BatchState where
  fs : FS
  successful_downloads : Nat
  failed_downloads : Nat
  report : List (Nat × ListingResult)
  requests : List FPath
  deriving DecidableEq

/-- Handling of one completed future in main, lines 255-269: a
successful fetch runs download_webms and counts as a success, any fetch
failure is caught, counted, and the loop moves on. -/
def stepListing (fetch : Fetch) (net : Net) (st : BatchState)
    (sel : Nat × FPath) : BatchState :=
  match fetch sel.1 with
  | Except.ok thread_data =>
    let r := download_webms net st.fs thread_data sel.2
    ⟨r.1, st.successful_downloads + 1, st.failed_downloads,
      st.report ++ [(sel.1, ListingResult.done r.2.1)], st.requests ++ r.2.2⟩
  | Except.error e =>
    ⟨st.fs, st.successful_downloads, st.failed_downloads + 1,
      st.report ++ [(sel.1, ListingResult.errored e)], st.requests⟩

/-- The orchestration loop of main over the selected listings, taken in
completion order.  Fetches run concurrently in the source but all
download work happens sequentially in the main thread, one completed
future at a time. -/
def runBatch (fetch : Fetch) (net : Net) (fs : FS)
    (selected : List (Nat × FPath)) : BatchState :=
  selected.foldl (stepListing fetch net) ⟨fs, 0, 0, [], []⟩

/-- Whether a fetch result is a success. -/
def isOkB : Except FetchErr (List Post) → Bool
  | Except.ok _ => true
  | Except.error _ => false

/-! ## Spec-side definitions for refinement comparison -/

/-- Written from the words of the sanitization claim: replace the
reserved characters and all control characters, each with an underscore,
then strip leading and trailing dots and spaces, truncate to 200
characters, and substitute the placeholder when the result is empty. -/
def sanitizeClaimC8 (name : FPath) : FPath :=
  let n1 := name.map fun c => if c ∈ reservedChars ∨ isCtrl c = true then '_' else c
  let n2 := stripDotsSpaces n1
  let n3 := if 200 < n2.length then n2.take 200 else n2
  if n3 = [] then unnamedName else n3

/-- Written from the words of the amended sanitization claim: replace
each reserved character with an underscore, strip leading and trailing
dots and spaces, then remove (rather than replace) the ASCII control
characters x00-x1f and x7f, truncate the result to 200 characters, and
substitute the placeholder name when the input or the result is empty. -/
def sanitizeAmendedC8 (name : FPath) : FPath :=
  if name = [] then unnamedName
  else
    let replaced := name.map fun c => if c ∈ reservedChars then '_' else c
    let stripped := stripDotsSpaces replaced
    let decontrolled := stripped.filter fun c => !(isCtrl c)
    if 200 < decontrolled.length then decontrolled.take 200
    else if decontrolled = [] then unnamedName else decontrolled

/-! ## Lemmas: decimal rendering -/

lemma decDigitsAux_acc (fuel : Nat) :
    ∀ n acc, decDigitsAux fuel n acc = decDigitsAux fuel n [] ++ acc := by
  induction fuel with
  | zero => intro n acc; simp [decDigitsAux]
  | succ f ih =>
    intro n acc
    by_cases h : n / 10 = 0
    · simp [decDigitsAux, h]
    · simp only [decDigitsAux, if_neg h]
      rw [ih (n / 10) (decDigitChar (n % 10) :: acc),
        ih (n / 10) [decDigitChar (n % 10)], List.append_assoc]
      rfl

lemma decDigitsAux_fuel (n : Nat) : ∀ f g, n < f → n < g →
    decDigitsAux f n [] = decDigitsAux g n [] := by
  induction n using Nat.strong_induction_on with
  | _ n ih =>
    intro f g hf hg
    match f, g, hf, hg with
    | f' + 1, g' + 1, hf, hg =>
      by_cases h : n / 10 = 0
      · simp [decDigitsAux, h]
      · have hn : 0 < n := by
          rcases Nat.eq_zero_or_pos n with h0 | h0
          · exact absurd (by simp [h0]) h
          · exact h0
        have hlt : n / 10 < n := Nat.div_lt_self hn (by omega)
        simp only [decDigitsAux, if_neg h]
        rw [decDigitsAux_acc, decDigitsAux_acc g']
        rw [ih (n / 10) hlt f' g' (by omega) (by omega)]

lemma natToChars_step {n : Nat} (h : n / 10 ≠ 0) :
    natToChars n = natToChars (n / 10) ++ [decDigitChar (n % 10)] := by
  have hn : 0 < n := by
    rcases Nat.eq_zero_or_pos n with h0 | h0
    · exact absurd (by simp [h0]) h
    · exact h0
  have hlt : n / 10 < n := Nat.div_lt_self hn (by omega)
  show decDigitsAux (n + 1) n [] = _
  rw [show decDigitsAux (n + 1) n [] =
      decDigitsAux n (n / 10) [decDigitChar (n % 10)] by
    simp [decDigitsAux, if_neg h]]
  rw [decDigitsAux_acc, decDigitsAux_fuel (n / 10) n (n / 10 + 1) (by omega) (by omega)]
  rfl

lemma charToDigit_decDigitChar {d : Nat} (h : d < 10) :
    charToDigit (decDigitChar d) = d := by
  interval_cases d <;> decide

lemma decVal_append_singleton (l : List Char) (c : Char) :
    decVal (l ++ [c]) = 10 * decVal l + charToDigit c := by
  simp [decVal, List.foldl_append]

lemma decVal_natToChars (n : Nat) : decVal (natToChars n) = n := by
  induction n using Nat.strong_induction_on with
  | _ n ih =>
    by_cases h : n / 10 = 0
    · have hlt : n < 10 := by omega
      have : natToChars n = [decDigitChar (n % 10)] := by
        simp [natToChars, decDigitsAux, h]
      rw [this]
      have : n % 10 = n := Nat.mod_eq_of_lt hlt
      simp [decVal, this, charToDigit_decDigitChar hlt]
    · have hn : 0 < n := by
        rcases Nat.eq_zero_or_pos n with h0 | h0
        · exact absurd (by simp [h0]) h
        · exact h0
      have hlt : n / 10 < n := Nat.div_lt_self hn (by omega)
      rw [natToChars_step h, decVal_append_singleton, ih (n / 10) hlt,
        charToDigit_decDigitChar (Nat.mod_lt n (by omega))]
      omega

lemma natToChars_injective : Function.Injective natToChars := by
  intro m n h
  have := decVal_natToChars m
  rw [h, decVal_natToChars] at this
  omega

/-! ## Lemmas: filesystem -/

lemma fsLookup_write (fs : FS) (p q : FPath) (c : Content) :
    fsLookup (fsWrite fs p c) q = if p = q then some c else fsLookup fs q := by
  simp [fsWrite, fsLookup]

lemma fsLookup_remove_self (fs : FS) (p : FPath) :
    fsLookup (fsRemove fs p) p = none := by
  induction fs with
  | nil => simp [fsRemove, fsLookup]
  | cons e rest ih =>
    by_cases he : e.1 = p
    · simpa [fsRemove, List.filter_cons, he] using ih
    · simp only [fsRemove, List.filter_cons, ne_eq, he, not_false_eq_true, decide_True,
        if_true, fsLookup, if_neg he]
      simpa [fsRemove] using ih

lemma fsLookup_remove_other (fs : FS) (p q : FPath) (h : q ≠ p) :
    fsLookup (fsRemove fs p) q = fsLookup fs q := by
  induction fs with
  | nil => simp [fsRemove, fsLookup]
  | cons e rest ih =>
    by_cases he : e.1 = p
    · have hq : e.1 ≠ q := by rw [he]; exact fun hh => h hh.symm
      simp only [fsRemove, List.filter_cons, he, ne_eq, not_true_eq_false] at ih ⊢
      simp only [decide_False, if_false, fsLookup, if_neg hq]
      simpa [fsRemove] using ih
    · simp only [fsRemove, List.filter_cons, ne_eq, he, not_false_eq_true, decide_True,
        if_true, fsLookup]
      by_cases hq : e.1 = q
      · simp [hq]
      · simp only [if_neg hq]
        simpa [fsRemove] using ih

lemma fsExistsP_iff_mem (fs : FS) (p : FPath) :
    fsExistsP fs p = true ↔ p ∈ fs.map Prod.fst := by
  induction fs with
  | nil => simp [fsExistsP, fsLookup]
  | cons e rest ih =>
    simp only [List.map_cons, List.mem_cons]
    by_cases he : e.1 = p
    · simp [fsExistsP, fsLookup, he]
    · rw [show fsExistsP (e :: rest) p = fsExistsP rest p by
        simp [fsExistsP, fsLookup, he]]
      rw [ih]
      constructor
      · exact Or.inr
      · rintro (h | h)
        · exact absurd h.symm he
        · exact h

/-! ## Lemmas: filesystem namer -/

lemma suffixedPath_inj (directory base_filename extension : FPath) (k j : Nat)
    (h : suffixedPath directory base_filename extension k =
      suffixedPath directory base_filename extension j) : k = j := by
  unfold suffixedPath pathJoin at h
  have h1 := List.append_cancel_left h
  have h2 := (List.cons.injEq _ _ _ _).mp h1
  have h3 := List.append_cancel_left h2.2
  have h4 := (List.cons.injEq _ _ _ _).mp h3
  have h5 := List.append_cancel_right h4.2
  exact natToChars_injective h5

lemma exists_free_counter (fs : FS) (directory base_filename extension : FPath)
    (start : Nat) : ∃ j, start ≤ j ∧ j < start + (fs.length + 1) ∧
      fsExistsP fs (suffixedPath directory base_filename extension j) = false := by
  by_contra hcon
  push_neg at hcon
  have hall : ∀ j, start ≤ j → j < start + (fs.length + 1) →
      fsExistsP fs (suffixedPath directory base_filename extension j) = true := by
    intro j h1 h2
    have := hcon j h1 h2
    cases hb : fsExistsP fs (suffixedPath directory base_filename extension j)
    · exact absurd hb this
    · rfl
  have hmaps : ∀ j ∈ Finset.Ico start (start + (fs.length + 1)),
      suffixedPath directory base_filename extension j ∈ (fs.map Prod.fst).toFinset := by
    intro j hj
    rw [Finset.mem_Ico] at hj
    rw [List.mem_toFinset]
    exact (fsExistsP_iff_mem fs _).mp (hall j hj.1 hj.2)
  have hinj : Set.InjOn (suffixedPath directory base_filename extension)
      (Finset.Ico start (start + (fs.length + 1))) := by
    intro a _ b _ hab
    exact suffixedPath_inj directory base_filename extension a b hab
  have hcard := Finset.card_le_card_of_injOn _ hmaps hinj
  rw [Nat.card_Ico] at hcard
  have hle : (fs.map Prod.fst).toFinset.card ≤ fs.length := by
    calc (fs.map Prod.fst).toFinset.card ≤ (fs.map Prod.fst).length :=
          (fs.map Prod.fst).toFinset_card_le
      _ = fs.length := List.length_map _ _
  omega

lemma uniqueLoop_finds (fs : FS) (directory base_filename extension : FPath) :
    ∀ fuel start,
      (∃ j, start ≤ j ∧ j < start + fuel ∧
        fsExistsP fs (suffixedPath directory base_filename extension j) = false) →
      ∃ k, start ≤ k ∧
        fsExistsP fs (suffixedPath directory base_filename extension k) = false ∧
        uniqueLoop fs directory base_filename extension start fuel =
          suffixedPath directory base_filename extension k ∧
        ∀ j, start ≤ j → j < k →
          fsExistsP fs (suffixedPath directory base_filename extension j) = true := by
  intro fuel
  induction fuel with
  | zero =>
    intro start h
    obtain ⟨j, h1, h2, _⟩ := h
    omega
  | succ f ih =>
    intro start h
    by_cases hex : fsExistsP fs (suffixedPath directory base_filename extension start) = true
    · obtain ⟨j, h1, h2, h3⟩ := h
      have hjs : start + 1 ≤ j := by
        rcases Nat.lt_or_ge start j with hlt | hge
        · omega
        · have : j = start := by omega
          rw [this] at h3
          rw [hex] at h3
          exact absurd h3 (by simp)
      obtain ⟨k, hk1, hk2, hk3, hk4⟩ := ih (start + 1) ⟨j, hjs, by omega, h3⟩
      refine ⟨k, by omega, hk2, ?_, ?_⟩
      · rw [uniqueLoop, if_pos hex]
        exact hk3
      · intro j2 hj1 hj2
        rcases Nat.lt_or_ge j2 (start + 1) with hlt | hge
        · have : j2 = start := by omega
          rw [this]; exact hex
        · exact hk4 j2 hge hj2
    · have hfalse : fsExistsP fs (suffixedPath directory base_filename extension start) = false := by
        cases hb : fsExistsP fs (suffixedPath directory base_filename extension start)
        · rfl
        · exact absurd hb hex
      refine ⟨start, le_refl _, hfalse, ?_, ?_⟩
      · rw [uniqueLoop]
        simp only [hfalse]
        rfl
      · intro j hj1 hj2; omega

/-- The chosen path never exists, and when the plain path was taken the
suffixing went through counters 1, 2, ... up to the first free one. -/
lemma get_unique_filepath_spec (fs : FS) (directory base_filename extension : FPath) :
    fsExistsP fs (get_unique_filepath fs directory base_filename extension) = false ∧
    (fsExistsP fs (pathJoin directory (base_filename ++ extension)) = true →
      ∃ k, 1 ≤ k ∧
        get_unique_filepath fs directory base_filename extension =
          suffixedPath directory base_filename extension k ∧
        ∀ j, 1 ≤ j → j < k →
          fsExistsP fs (suffixedPath directory base_filename extension j) = true) := by
  by_cases hbase : fsExistsP fs (pathJoin directory (base_filename ++ extension)) = true
  · obtain ⟨k, hk1, hk2, hk3, hk4⟩ :=
      uniqueLoop_finds fs directory base_filename extension (fs.length + 1) 1
        (exists_free_counter fs directory base_filename extension 1)
    constructor
    · rw [get_unique_filepath]
      simp only [hbase, if_true]
      rw [hk3]; exact hk2
    · intro _
      exact ⟨k, hk1, by rw [get_unique_filepath]; simp only [hbase, if_true]; exact hk3, hk4⟩
  · have hfalse : fsExistsP fs (pathJoin directory (base_filename ++ extension)) = false := by
      cases hb : fsExistsP fs (pathJoin directory (base_filename ++ extension))
      · rfl
      · exact absurd hb hbase
    constructor
    · rw [get_unique_filepath]
      simp only [hfalse]
      exact hfalse
    · intro h; exact absurd h hbase

/-- The path chosen by the namer is always fresh. -/
lemma get_unique_fresh (fs : FS) (directory base_filename extension : FPath) :
    fsExistsP fs (get_unique_filepath fs directory base_filename extension) = false :=
  (get_unique_filepath_spec fs directory base_filename extension).1

/-! ## Lemmas: sanitization -/

lemma mem_stripDotsSpaces {c : Char} {l : List Char} (h : c ∈ stripDotsSpaces l) :
    c ∈ l := by
  unfold stripDotsSpaces at h
  rw [List.mem_reverse] at h
  have h1 : c ∈ (l.dropWhile isDotSpace).reverse :=
    (List.dropWhile_sublist _).subset h
  rw [List.mem_reverse] at h1
  exact (List.dropWhile_sublist _).subset h1

/-! ## Claim theorems: sanitization -/

/-- Claim C7: sanitization is total and bounded.  For every input string,
sanitize_filename returns a non-empty string of at most 200 characters
containing none of the reserved characters. -/
theorem c7_sanitize_total_bounded (name : FPath) :
    sanitize_filename name ≠ [] ∧
    (sanitize_filename name).length ≤ 200 ∧
    ∀ c ∈ sanitize_filename name, c ∉ reservedChars := by
  rw [sanitize_filename]
  by_cases h0 : name = []
  · rw [if_pos h0]
    exact ⟨by decide, by decide, by decide⟩
  · rw [if_neg h0]
    simp only []
    set n1 := name.map fun c => if c ∈ reservedChars then '_' else c with hn1
    set n3 := (stripDotsSpaces n1).filter (fun c => !(isCtrl c)) with hn3
    have hmem : ∀ c ∈ n3, c ∉ reservedChars := by
      intro c hc
      have hc2 : c ∈ stripDotsSpaces n1 := List.mem_of_mem_filter hc
      have hc3 : c ∈ n1 := mem_stripDotsSpaces hc2
      rw [hn1] at hc3
      obtain ⟨c', _, hc'⟩ := List.mem_map.mp hc3
      by_cases hr : c' ∈ reservedChars
      · rw [if_pos hr] at hc'
        rw [← hc']
        decide
      · rw [if_neg hr] at hc'
        rw [← hc']
        exact hr
    by_cases hlen : 200 < n3.length
    · rw [if_pos hlen]
      refine ⟨?_, ?_, ?_⟩
      · intro hnil
        have := congrArg List.length hnil
        rw [List.length_take] at this
        simp only [List.length_nil] at this
        omega
      · rw [List.length_take]
        omega
      · intro c hc
        exact hmem c (List.take_subset _ _ hc)
    · rw [if_neg hlen]
      by_cases hnil : n3 = []
      · rw [if_pos hnil]
        exact ⟨by decide, by decide, by decide⟩
      · rw [if_neg hnil]
        refine ⟨hnil, by omega, hmem⟩

/-- Claim C7 witness at a concrete input. -/
theorem c7_witness :
    sanitize_filename "a<b".data ≠ [] ∧
    (sanitize_filename "a<b".data).length ≤ 200 ∧
    'a' ∉ reservedChars :=
  ⟨(c7_sanitize_total_bounded "a<b".data).1,
    (c7_sanitize_total_bounded "a<b".data).2.1,
    (c7_sanitize_total_bounded "a<b".data).2.2 'a' (by decide)⟩

/-- Claim C8 counterexample: at the input consisting of a, the control
character x01, and b, the code removes the control character and yields
ab, while the claimed algorithm (replace control characters with an
underscore) yields a_b. -/
theorem c8_counterexample :
    sanitize_filename ('a' :: '\x01' :: 'b' :: []) = "ab".data ∧
    sanitizeClaimC8 ('a' :: '\x01' :: 'b' :: []) = "a_b".data ∧
    sanitize_filename ('a' :: '\x01' :: 'b' :: []) ≠
      sanitizeClaimC8 ('a' :: '\x01' :: 'b' :: []) := by
  decide

/-- Claim C8 as amended: sanitize_filename replaces each reserved
character with an underscore, strips leading and trailing dots and
spaces, removes (rather than replaces) the ASCII control characters
x00-x1f and x7f after the strip, truncates to 200 characters, and
substitutes the placeholder name for an empty input or an empty result. -/
theorem c8_sanitize_algorithm : ∀ name, sanitize_filename name = sanitizeAmendedC8 name :=
  fun _ => rfl

/-! ## Claim theorem: filesystem namer -/

/-- Claim C9: for every directory state, base name and extension, the
chosen path does not exist at call time; and when the plain
directory/baseName.extension path already exists, the result carries a
numeric suffix k with every earlier suffix 1, ..., k-1 taken. -/
theorem c9_unique_filepath (fs : FS) (directory base_filename extension : FPath) :
    fsExistsP fs (get_unique_filepath fs directory base_filename extension) = false ∧
    (fsExistsP fs (pathJoin directory (base_filename ++ extension)) = true →
      ∃ k, 1 ≤ k ∧
        get_unique_filepath fs directory base_filename extension =
          suffixedPath directory base_filename extension k ∧
        ∀ j, 1 ≤ j → j < k →
          fsExistsP fs (suffixedPath directory base_filename extension j) = true) :=
  get_unique_filepath_spec fs directory base_filename extension

/-- Claim C9 witness: a directory state where the plain path is taken. -/
theorem c9_witness :
    fsExistsP [(pathJoin "t".data ("a".data ++ webmExt), ([] : Content))]
      (get_unique_filepath [(pathJoin "t".data ("a".data ++ webmExt), ([] : Content))]
        "t".data "a".data webmExt) = false ∧
    ∃ k, 1 ≤ k ∧
      get_unique_filepath [(pathJoin "t".data ("a".data ++ webmExt), ([] : Content))]
        "t".data "a".data webmExt = suffixedPath "t".data "a".data webmExt k ∧
      ∀ j, 1 ≤ j → j < k →
        fsExistsP [(pathJoin "t".data ("a".data ++ webmExt), ([] : Content))]
          (suffixedPath "t".data "a".data webmExt j) = true :=
  ⟨(c9_unique_filepath _ "t".data "a".data webmExt).1,
    (c9_unique_filepath _ "t".data "a".data webmExt).2 (by decide)⟩

/-! ## Lemmas: streaming downloader -/

lemma lookup_none_of_existsP_false {fs : FS} {p : FPath}
    (h : fsExistsP fs p = false) : fsLookup fs p = none := by
  unfold fsExistsP at h
  cases hl : fsLookup fs p
  · rfl
  · rw [hl] at h
    exact absurd h (by simp)

lemma remove_write_cancel (fs : FS) (p : FPath) (c : Content)
    (hfree : fsLookup fs p = none) (q : FPath) :
    fsLookup (fsRemove (fsWrite fs p c) p) q = fsLookup fs q := by
  by_cases hq : q = p
  · rw [hq, fsLookup_remove_self, hfree]
  · rw [fsLookup_remove_other _ _ _ hq, fsLookup_write,
      if_neg (fun h => hq h.symm)]

lemma writeChunks_go (chunks : List Content) : ∀ acc : Content,
    List.foldl (fun acc chunk => if chunk = [] then acc else acc ++ chunk) acc chunks =
      acc ++ chunks.flatten := by
  induction chunks with
  | nil => intro acc; simp
  | cons c rest ih =>
    intro acc
    by_cases hc : c = []
    · simp [hc, ih]
    · simp [hc, ih, List.append_assoc]

lemma writeChunks_eq_flatten (chunks : List Content) :
    writeChunks chunks = chunks.flatten := by
  rw [writeChunks, writeChunks_go]
  rfl

lemma openAndStream_ok {net : Net} {url : FPath} {cl : Nat} {chunks : List Content}
    (fs : FS) (p : FPath) (hnet : net url = NetResult.ok cl chunks)
    (hfree : fsExistsP fs p = false) :
    openAndStream net fs p url =
      (fsWrite fs p (writeChunks chunks),
        DownloadOutcome.downloaded p (writeChunks chunks).length) := by
  rw [openAndStream, hnet]
  simp [hfree]

lemma openAndStream_failEarly {net : Net} {url : FPath} {kind : NetErr}
    (fs : FS) (p : FPath) (hnet : net url = NetResult.failEarly kind)
    (hfree : fsExistsP fs p = false) :
    openAndStream net fs p url = (fs, DownloadOutcome.failed kind) := by
  rw [openAndStream, hnet]
  simp [hfree]

lemma openAndStream_failMid {net : Net} {url : FPath} {delivered : List Content}
    {kind : NetErr} (fs : FS) (p : FPath)
    (hnet : net url = NetResult.failMid delivered kind)
    (hfree : fsExistsP fs p = false) :
    openAndStream net fs p url =
      (fsRemove (fsWrite fs p (writeChunks delivered)) p,
        DownloadOutcome.failed kind) := by
  rw [openAndStream, hnet]
  have hmid : fsExistsP (fsWrite fs p (writeChunks delivered)) p = true := by
    unfold fsExistsP
    rw [fsLookup_write, if_pos rfl]
    rfl
  simp [hfree, hmid]

lemma openAndStream_not_dropped (net : Net) (fs : FS) (p url : FPath) :
    (openAndStream net fs p url).2 ≠ DownloadOutcome.dropped := by
  rw [openAndStream]
  cases net url with
  | ok cl chunks =>
    by_cases h : fsExistsP fs p = true <;> simp [h]
  | failEarly kind => simp
  | failMid delivered kind =>
    by_cases h : fsExistsP fs p = true <;> simp [h]

/-- When the post has a usable tim field, processWebm reduces to the
streaming step at the freshly chosen unique path, issuing exactly one
request. -/
lemma processWebm_eq (net : Net) (fs : FS) (safe_title : FPath) (webm : Post)
    (h : webm.tim.getD 0 ≠ 0) :
    processWebm net fs safe_title webm =
      ((openAndStream net fs
          (get_unique_filepath fs safe_title
            (sanitize_filename (webm.filename.getD unnamedName)) webmExt)
          (fileUrlOf (webm.tim.getD 0))).1,
        (openAndStream net fs
          (get_unique_filepath fs safe_title
            (sanitize_filename (webm.filename.getD unnamedName)) webmExt)
          (fileUrlOf (webm.tim.getD 0))).2,
        [fileUrlOf (webm.tim.getD 0)]) := by
  rw [processWebm]
  have hfree := get_unique_fresh fs safe_title
    (sanitize_filename (webm.filename.getD unnamedName)) webmExt
  simp only [hfree, Bool.false_eq_true, if_false, if_neg h]

lemma processWebm_not_dropped (net : Net) (fs : FS) (safe_title : FPath)
    (webm : Post) (h : webm.tim.getD 0 ≠ 0) :
    (processWebm net fs safe_title webm).2.1 ≠ DownloadOutcome.dropped := by
  rw [processWebm_eq net fs safe_title webm h]
  exact openAndStream_not_dropped net fs _ _

/-! ## Claim theorems: streaming downloader -/

/-- Claim C3: partial-write cleanup.  When the stream breaks after
delivering some chunks, the outcome is Failed with the underlying error
kind and the filesystem is pointwise unchanged (the partial file was
deleted); when the download returns successfully the file at the target
path holds the complete stream, the concatenation of every delivered
chunk. -/
theorem c3_partial_write_cleanup (net : Net) (fs : FS) (safe_title : FPath)
    (webm : Post) (t : Nat) (h1 : webm.tim = some t) (h2 : t ≠ 0) :
    (∀ delivered kind, net (fileUrlOf t) = NetResult.failMid delivered kind →
      (processWebm net fs safe_title webm).2.1 = DownloadOutcome.failed kind ∧
      ∀ q, fsLookup (processWebm net fs safe_title webm).1 q = fsLookup fs q) ∧
    (∀ cl chunks, net (fileUrlOf t) = NetResult.ok cl chunks →
      ∃ p, (processWebm net fs safe_title webm).2.1 =
          DownloadOutcome.downloaded p (writeChunks chunks).length ∧
        fsLookup (processWebm net fs safe_title webm).1 p = some chunks.flatten) := by
  have hgd : webm.tim.getD 0 = t := by rw [h1]; rfl
  have hne : webm.tim.getD 0 ≠ 0 := by rw [hgd]; exact h2
  have heq := processWebm_eq net fs safe_title webm hne
  rw [hgd] at heq
  set p := get_unique_filepath fs safe_title
    (sanitize_filename (webm.filename.getD unnamedName)) webmExt with hp
  have hfree : fsExistsP fs p = false := get_unique_fresh fs safe_title _ _
  constructor
  · intro delivered kind hnet
    rw [heq, openAndStream_failMid fs p hnet hfree]
    refine ⟨rfl, ?_⟩
    intro q
    exact remove_write_cancel fs p _ (lookup_none_of_existsP_false hfree) q
  · intro cl chunks hnet
    rw [heq, openAndStream_ok fs p hnet hfree]
    refine ⟨p, rfl, ?_⟩
    rw [fsLookup_write, if_pos rfl, writeChunks_eq_flatten]

/-- Claim C3 witness: a mid-stream timeout at a concrete input leaves
the filesystem unchanged at the target path, and a successful run at a
concrete input stores the full content. -/
theorem c3_witness :
    ((processWebm (fun _ => NetResult.failMid [[1]] NetErr.timeout) []
        "t".data (Post.mk (some webmExt) (some "clip".data) (some 7))).2.1 =
      DownloadOutcome.failed NetErr.timeout ∧
    fsLookup (processWebm (fun _ => NetResult.failMid [[1]] NetErr.timeout) []
        "t".data (Post.mk (some webmExt) (some "clip".data) (some 7))).1
      "t/clip.webm".data = fsLookup [] "t/clip.webm".data) :=
  ⟨((c3_partial_write_cleanup (fun _ => NetResult.failMid [[1]] NetErr.timeout) []
      "t".data (Post.mk (some webmExt) (some "clip".data) (some 7)) 7 rfl
      (by decide)).1 [[1]] NetErr.timeout rfl).1,
    ((c3_partial_write_cleanup (fun _ => NetResult.failMid [[1]] NetErr.timeout) []
      "t".data (Post.mk (some webmExt) (some "clip".data) (some 7)) 7 rfl
      (by decide)).1 [[1]] NetErr.timeout rfl).2 "t/clip.webm".data⟩

/-- Claim C5: an exclusive-create collision (the target path exists when
the open happens, another writer having created it after the name was
chosen) yields a Skipped outcome, not Failed, and overwrites nothing. -/
theorem c5_collision_skipped (net : Net) (fs : FS) (file_path file_url : FPath)
    (cl : Nat) (chunks : List Content)
    (hnet : net file_url = NetResult.ok cl chunks)
    (hex : fsExistsP fs file_path = true) :
    openAndStream net fs file_path file_url =
      (fs, DownloadOutcome.skipped file_path SkipReason.createCollision) := by
  rw [openAndStream, hnet]
  simp [hex]

/-- Claim C5 witness: a concrete collision. -/
theorem c5_witness :
    openAndStream (fun _ => NetResult.ok 1 [[5]]) [("t/x.webm".data, [9])]
      "t/x.webm".data "u".data =
      ([("t/x.webm".data, [9])],
        DownloadOutcome.skipped "t/x.webm".data SkipReason.createCollision) :=
  c5_collision_skipped (fun _ => NetResult.ok 1 [[5]]) [("t/x.webm".data, [9])]
    "t/x.webm".data "u".data 1 [[5]] rfl (by decide)

/-- Claim C10: a post whose tim field is present but zero is dropped
exactly like a post with the field absent: no network request is made,
no file is created, and the result coincides with that of the same post
with tim removed. -/
theorem c10_falsy_tim_dropped (net : Net) (fs : FS) (safe_title : FPath)
    (webm : Post) (h : webm.tim = some 0) :
    processWebm net fs safe_title webm = (fs, DownloadOutcome.dropped, []) ∧
    processWebm net fs safe_title webm =
      processWebm net fs safe_title (Post.mk webm.ext webm.filename none) := by
  have hfree := get_unique_fresh fs safe_title
    (sanitize_filename (webm.filename.getD unnamedName)) webmExt
  constructor
  · rw [processWebm]
    simp only [hfree, Bool.false_eq_true, if_false, h]
    rfl
  · rw [processWebm, processWebm]
    simp only [hfree, Bool.false_eq_true, if_false, h]
    rfl

/-- Claim C10 witness at a concrete input. -/
theorem c10_witness :
    processWebm (fun _ => NetResult.ok 1 [[5]]) [] "t".data
        (Post.mk (some webmExt) (some "clip".data) (some 0)) =
      ([], DownloadOutcome.dropped, []) ∧
    processWebm (fun _ => NetResult.ok 1 [[5]]) [] "t".data
        (Post.mk (some webmExt) (some "clip".data) (some 0)) =
      processWebm (fun _ => NetResult.ok 1 [[5]]) [] "t".data
        (Post.mk (some webmExt) (some "clip".data) none) :=
  c10_falsy_tim_dropped (fun _ => NetResult.ok 1 [[5]]) [] "t".data
    (Post.mk (some webmExt) (some "clip".data) (some 0)) rfl

/-- Claim C1, amended: re-running an attachment over any filesystem
state issues exactly one network request and downloads to a freshly
suffixed path; it is never Skipped, because the pre-download existence
check tests the freshly computed unique path, which never exists.
Contents of files already present are unchanged. -/
theorem c1_rerun_downloads_again (net : Net) (fs : FS) (safe_title : FPath)
    (webm : Post) (t cl : Nat) (chunks : List Content)
    (h1 : webm.tim = some t) (h2 : t ≠ 0)
    (hnet : net (fileUrlOf t) = NetResult.ok cl chunks) :
    (processWebm net fs safe_title webm).2.2 = [fileUrlOf t] ∧
    (∃ p, (processWebm net fs safe_title webm).2.1 =
        DownloadOutcome.downloaded p (writeChunks chunks).length ∧
      fsExistsP fs p = false) ∧
    (∀ p reason,
      (processWebm net fs safe_title webm).2.1 ≠ DownloadOutcome.skipped p reason) ∧
    (∀ q, fsExistsP fs q = true →
      fsLookup (processWebm net fs safe_title webm).1 q = fsLookup fs q) := by
  have hgd : webm.tim.getD 0 = t := by rw [h1]; rfl
  have hne : webm.tim.getD 0 ≠ 0 := by rw [hgd]; exact h2
  have heq := processWebm_eq net fs safe_title webm hne
  rw [hgd] at heq
  set p := get_unique_filepath fs safe_title
    (sanitize_filename (webm.filename.getD unnamedName)) webmExt with hp
  have hfree : fsExistsP fs p = false := get_unique_fresh fs safe_title _ _
  rw [heq, openAndStream_ok fs p hnet hfree]
  refine ⟨rfl, ⟨p, rfl, hfree⟩, by simp, ?_⟩
  intro q hq
  rw [fsLookup_write]
  have hne2 : p ≠ q := by
    intro hpq
    rw [hpq] at hfree
    rw [hfree] at hq
    exact absurd hq (by simp)
  rw [if_neg hne2]

/-- Claim C1 witness: a concrete second-run state. -/
theorem c1_witness :
    (processWebm (fun _ => NetResult.ok 3 [[1, 2, 3]]) [("t/clip.webm".data, [1, 2, 3])]
        "t".data (Post.mk (some webmExt) (some "clip".data) (some 7))).2.2 =
      [fileUrlOf 7] ∧
    ∃ p, (processWebm (fun _ => NetResult.ok 3 [[1, 2, 3]]) [("t/clip.webm".data, [1, 2, 3])]
        "t".data (Post.mk (some webmExt) (some "clip".data) (some 7))).2.1 =
      DownloadOutcome.downloaded p (writeChunks [[1, 2, 3]]).length ∧
      fsExistsP [("t/clip.webm".data, [1, 2, 3])] p = false :=
  ⟨(c1_rerun_downloads_again (fun _ => NetResult.ok 3 [[1, 2, 3]])
      [("t/clip.webm".data, [1, 2, 3])] "t".data
      (Post.mk (some webmExt) (some "clip".data) (some 7)) 7 3 [[1, 2, 3]] rfl
      (by decide) rfl).1,
    (c1_rerun_downloads_again (fun _ => NetResult.ok 3 [[1, 2, 3]])
      [("t/clip.webm".data, [1, 2, 3])] "t".data
      (Post.mk (some webmExt) (some "clip".data) (some 7)) 7 3 [[1, 2, 3]] rfl
      (by decide) rfl).2.1⟩

/-- Claim C1 counterexample: after a completed first run over an empty
output directory, the second run over the same directory issues a
network request again (the request list is non-empty, not zero) and its
outcome is Downloaded at the suffixed path t/clip_1.webm, not Skipped;
so the pipeline is not idempotent over the output directory. -/
theorem c1_counterexample :
    (download_webms (fun _ => NetResult.ok 3 [[1, 2, 3]])
        (download_webms (fun _ => NetResult.ok 3 [[1, 2, 3]]) []
          [Post.mk (some webmExt) (some "clip".data) (some 7)] "t".data).1
        [Post.mk (some webmExt) (some "clip".data) (some 7)] "t".data).2.2 ≠ [] ∧
    (download_webms (fun _ => NetResult.ok 3 [[1, 2, 3]])
        (download_webms (fun _ => NetResult.ok 3 [[1, 2, 3]]) []
          [Post.mk (some webmExt) (some "clip".data) (some 7)] "t".data).1
        [Post.mk (some webmExt) (some "clip".data) (some 7)] "t".data).2.1 =
      [DownloadOutcome.downloaded "t/clip_1.webm".data 3] := by
  decide

/-! ## Lemmas: download loop -/

lemma downloadLoop_spec (net : Net) (safe_title : FPath) : ∀ (posts : List Post) (fs : FS),
    (downloadLoop net fs safe_title posts).2.1.length = posts.length ∧
    ∀ i (h1 : i < posts.length)
      (h2 : i < (downloadLoop net fs safe_title posts).2.1.length),
      (posts.get ⟨i, h1⟩).tim.getD 0 ≠ 0 →
      (downloadLoop net fs safe_title posts).2.1.get ⟨i, h2⟩ ≠
        DownloadOutcome.dropped := by
  intro posts
  induction posts with
  | nil =>
    intro fs
    refine ⟨rfl, ?_⟩
    intro i h1 _ _
    exact absurd h1 (by simp)
  | cons webm rest ih =>
    intro fs
    obtain ⟨ihlen, ihget⟩ := ih (processWebm net fs safe_title webm).1
    constructor
    · simp only [downloadLoop, List.length_cons]
      rw [ihlen]
    · intro i h1 h2 htim
      cases i with
      | zero =>
        simp only [downloadLoop, List.get] at htim ⊢
        exact processWebm_not_dropped net fs safe_title webm htim
      | succ j =>
        simp only [downloadLoop, List.get, List.length_cons] at htim h2 ⊢
        exact ihget j (by omega) (by omega) htim

/-! ## Claim theorem: one outcome per task -/

/-- Claim C4: the download loop produces exactly one outcome per
filtered post, in order, and every post carrying a usable remote id (an
attachment task) receives a terminal outcome: Downloaded, Skipped or
Failed, never the dropped marker.  Each task is processed exactly once,
so none is retried after a Failed outcome. -/
theorem c4_exactly_one_outcome (net : Net) (fs : FS) (thread_data : List Post)
    (thread_title : FPath) :
    (download_webms net fs thread_data thread_title).2.1.length =
      (thread_data.filter fun post => decide (post.ext = some webmExt)).length ∧
    ∀ i (h1 : i < (thread_data.filter fun post =>
          decide (post.ext = some webmExt)).length)
      (h2 : i < (download_webms net fs thread_data thread_title).2.1.length),
      ((thread_data.filter fun post =>
          decide (post.ext = some webmExt)).get ⟨i, h1⟩).tim.getD 0 ≠ 0 →
      (download_webms net fs thread_data thread_title).2.1.get ⟨i, h2⟩ ≠
        DownloadOutcome.dropped := by
  rw [download_webms]
  by_cases hempty : (thread_data.filter fun post => decide (post.ext = some webmExt)) = []
  · rw [if_pos hempty, hempty]
    refine ⟨rfl, ?_⟩
    intro i h1 _ _
    exact absurd h1 (by simp)
  · rw [if_neg hempty]
    exact downloadLoop_spec net (sanitize_filename thread_title) _ fs

/-- Claim C4 witness at a concrete thread payload. -/
theorem c4_witness :
    (download_webms (fun _ => NetResult.ok 3 [[1, 2, 3]]) []
        [Post.mk (some webmExt) (some "clip".data) (some 7)] "t".data).2.1.length =
      ([Post.mk (some webmExt) (some "clip".data) (some 7)].filter fun post =>
        decide (post.ext = some webmExt)).length ∧
    (download_webms (fun _ => NetResult.ok 3 [[1, 2, 3]]) []
        [Post.mk (some webmExt) (some "clip".data) (some 7)] "t".data).2.1.get
      ⟨0, by decide⟩ ≠ DownloadOutcome.dropped :=
  ⟨(c4_exactly_one_outcome (fun _ => NetResult.ok 3 [[1, 2, 3]]) []
      [Post.mk (some webmExt) (some "clip".data) (some 7)] "t".data).1,
    (c4_exactly_one_outcome (fun _ => NetResult.ok 3 [[1, 2, 3]]) []
      [Post.mk (some webmExt) (some "clip".data) (some 7)] "t".data).2 0
      (by decide) (by decide) (by decide)⟩

/-! ## Lemmas: batch orchestrator -/

lemma stepListing_report (fetch : Fetch) (net : Net) (st : BatchState)
    (sel : Nat × FPath) : ∃ res,
    (stepListing fetch net st sel).report = st.report ++ [(sel.1, res)] := by
  rw [stepListing]
  cases fetch sel.1 with
  | ok thread_data => exact ⟨_, rfl⟩
  | error e => exact ⟨_, rfl⟩

lemma foldl_report_fst (fetch : Fetch) (net : Net) :
    ∀ (selected : List (Nat × FPath)) (st : BatchState),
    ((selected.foldl (stepListing fetch net) st).report).map Prod.fst =
      st.report.map Prod.fst ++ selected.map Prod.fst := by
  intro selected
  induction selected with
  | nil => intro st; simp
  | cons s rest ih =>
    intro st
    rw [List.foldl_cons, ih]
    obtain ⟨res, hres⟩ := stepListing_report fetch net st s
    rw [hres]
    simp

lemma foldl_report_filter (fetch : Fetch) (net : Net) (L : Nat) (e : FetchErr)
    (hL : fetch L = Except.error e) :
    ∀ (selected : List (Nat × FPath)) (st : BatchState),
    ((selected.foldl (stepListing fetch net) st).report).filter
        (fun r => decide (r.1 = L)) =
      st.report.filter (fun r => decide (r.1 = L)) ++
        (selected.filter fun s => decide (s.1 = L)).map
          (fun _ => (L, ListingResult.errored e)) := by
  intro selected
  induction selected with
  | nil => intro st; simp
  | cons s rest ih =>
    intro st
    rw [List.foldl_cons, ih]
    by_cases hs : s.1 = L
    · have hstep : (stepListing fetch net st s).report =
          st.report ++ [(L, ListingResult.errored e)] := by
        rw [stepListing, hs, hL]
      rw [hstep, List.filter_append]
      simp [hs]
    · obtain ⟨res, hres⟩ := stepListing_report fetch net st s
      rw [hres, List.filter_append]
      simp [hs]

lemma foldl_counts (fetch : Fetch) (net : Net) :
    ∀ (selected : List (Nat × FPath)) (st : BatchState),
    (selected.foldl (stepListing fetch net) st).successful_downloads =
      st.successful_downloads +
        (selected.filter fun s => isOkB (fetch s.1)).length ∧
    (selected.foldl (stepListing fetch net) st).failed_downloads =
      st.failed_downloads +
        (selected.filter fun s => !isOkB (fetch s.1)).length := by
  intro selected
  induction selected with
  | nil => intro st; simp
  | cons s rest ih =>
    intro st
    rw [List.foldl_cons]
    obtain ⟨ih1, ih2⟩ := ih (stepListing fetch net st s)
    cases hf : fetch s.1 with
    | ok thread_data =>
      constructor
      · rw [ih1]
        simp [stepListing, hf, isOkB, List.filter_cons]
        omega
      · rw [ih2]
        simp [stepListing, hf, isOkB, List.filter_cons]
    | error e =>
      constructor
      · rw [ih1]
        simp [stepListing, hf, isOkB, List.filter_cons]
      · rw [ih2]
        simp [stepListing, hf, isOkB, List.filter_cons]
        omega

/-! ## Claim theorems: batch orchestrator -/

/-- Claim C2: per-listing failure isolation.  If the fetch of a listing
L that occurs exactly once in the selection fails, the batch report
holds exactly one entry for L, namely Errored with that error (so zero
Done entries and zero downloaded attachments for L), and the report
still holds one terminal entry for every selected listing, in
completion order. -/
theorem c2_fetch_failure_isolated (fetch : Fetch) (net : Net) (fs : FS)
    (selected : List (Nat × FPath)) (L : Nat) (e : FetchErr)
    (hL : fetch L = Except.error e)
    (honce : (selected.filter fun s => decide (s.1 = L)).length = 1) :
    (runBatch fetch net fs selected).report.filter (fun r => decide (r.1 = L)) =
      [(L, ListingResult.errored e)] ∧
    (runBatch fetch net fs selected).report.map Prod.fst =
      selected.map Prod.fst := by
  constructor
  · rw [runBatch, foldl_report_filter fetch net L e hL selected]
    obtain ⟨x, hx⟩ := List.length_eq_one.mp honce
    rw [hx]
    simp
  · rw [runBatch, foldl_report_fst]
    simp

/-- Claim C2 witness: listing 2 fails with a timeout, listing 3 is
fetched; the report isolates the failure. -/
theorem c2_witness :
    (runBatch (fun i => if i = 2 then Except.error FetchErr.timeout else Except.ok [])
        (fun _ => NetResult.ok 1 [[5]]) [] [(2, "a".data), (3, "b".data)]).report.filter
      (fun r => decide (r.1 = 2)) = [(2, ListingResult.errored FetchErr.timeout)] ∧
    (runBatch (fun i => if i = 2 then Except.error FetchErr.timeout else Except.ok [])
        (fun _ => NetResult.ok 1 [[5]]) [] [(2, "a".data), (3, "b".data)]).report.map
      Prod.fst = [(2, "a".data), (3, "b".data)].map Prod.fst :=
  c2_fetch_failure_isolated
    (fun i => if i = 2 then Except.error FetchErr.timeout else Except.ok [])
    (fun _ => NetResult.ok 1 [[5]]) [] [(2, "a".data), (3, "b".data)] 2
    FetchErr.timeout rfl (by decide)

/-- Claim C6 counterexample: a listing whose fetch succeeded and whose
single attachment failed still counts as succeeded (successful count 1,
errored count 0), although every attachment in it failed; the claimed
exception clause does not hold of the code. -/
theorem c6_counterexample :
    (runBatch (fun _ => Except.ok [Post.mk (some webmExt) (some "clip".data) (some 7)])
        (fun _ => NetResult.failEarly NetErr.transport) [] [(1, "t".data)]).report =
      [(1, ListingResult.done [DownloadOutcome.failed NetErr.transport])] ∧
    (runBatch (fun _ => Except.ok [Post.mk (some webmExt) (some "clip".data) (some 7)])
        (fun _ => NetResult.failEarly NetErr.transport) [] [(1, "t".data)]).successful_downloads = 1 ∧
    (runBatch (fun _ => Except.ok [Post.mk (some webmExt) (some "clip".data) (some 7)])
        (fun _ => NetResult.failEarly NetErr.transport) [] [(1, "t".data)]).failed_downloads = 0 := by
  decide

/-- Claim C6, amended: the final summary reports the count of listings
whose fetch succeeded and the count of listings whose fetch failed;
per-attachment download failures never change a listing's disposition —
a successfully fetched listing counts as succeeded even when every
attachment in it failed. -/
theorem c6_summary_counts (fetch : Fetch) (net : Net) (fs : FS)
    (selected : List (Nat × FPath)) :
    (runBatch fetch net fs selected).successful_downloads =
      (selected.filter fun s => isOkB (fetch s.1)).length ∧
    (runBatch fetch net fs selected).failed_downloads =
      (selected.filter fun s => !isOkB (fetch s.1)).length := by
  obtain ⟨h1, h2⟩ := foldl_counts fetch net selected ⟨fs, 0, 0, [], []⟩
  constructor
  · rw [runBatch, h1]
    simp
  · rw [runBatch, h2]
    simp
